import Mathlib

/-!
# Verification of the `UploadState` upload-batch coordinator

Shallow embedding of
`x-pack/plugins/files/public/components/upload_file/upload_state.ts`.

The TypeScript class coordinates a batch of file uploads with rxjs streams.
We embed it as a pure state machine:

* Each rxjs channel (`error$`, `done$`, `uploading$`, `clear$`) becomes a
  field of `CoordState`; for the `Subject`-style channels we additionally log
  the sequence of emitted values so that emission-order claims can be stated.
* Every `setState` on a per-file state subject synchronously re-runs the
  derived-stream computations in the constructor (`combineLatest` emits once
  per inner emission); this is the `recompute` function.  `combineLatest` of
  an empty list emits nothing, hence `recompute` is not invoked when the
  batch is replaced by the empty list.
* Backend promise resolutions are modelled by an `Outcome` per record, and
  the order in which the pending attempts settle is an explicit `order`
  argument to `upload` (any permutation of the attempted indices).  The
  synchronous part of every `uploadFile` call (the body runs eagerly for all
  records, in batch order, when `forkJoin`'s argument list is built) is
  `startAttempt`; the asynchronous continuation is `finishAttempt`.
* Calls made to the backend `FilesClient` are logged in `calls`.
* `SimpleStateSubject.setState` (from `util.ts`) merges the given fields into
  the current record; each `setState` call site below writes out exactly the
  fields it passes.
-/

namespace UploadSpec

/-- A user-selected file handle: the `File` of the DOM, restricted to the
fields the coordinator reads (`name` and `size`). -/
structure FileHandle where
  name : String
  size : Nat
deriving DecidableEq, Repr

/-- A JavaScript `Error`, restricted to the `message` field, which is the only
field `uploadFile` inspects (`e.message === 'Abort!'`). -/
structure Err where
  message : String
deriving DecidableEq, Repr

/-- The `status` field of `FileState` in `upload_state.ts`. -/
inductive Status
  | idle
  | uploading
  | uploaded
  | upload_failed
deriving DecidableEq, Repr

/-- The `FileState` interface of `upload_state.ts`: one record per file of the
batch, held in a `SimpleStateSubject`. -/
structure FileState where
  file : FileHandle
  status : Status
  id : Option String := none
  error : Option Err := none
deriving DecidableEq, Repr

/-- The `FileKind` configuration as read by the coordinator: its `id` and the
optional `maxSizeBytes`. -/
structure FileKind where
  id : String
  maxSizeBytes : Option Nat := none
deriving DecidableEq, Repr

/-- The `DoneNotification` of `upload_state.ts` (`{id, kind}`); the source
reads `file.id!` so we keep the optional id as stored on the record. -/
structure DoneNote where
  id : Option String
  kind : String
deriving DecidableEq, Repr

/-- The `UploadOptions` of `upload_state.ts`. -/
structure UploadOptions where
  allowRepeatedUploads : Bool := false
deriving DecidableEq, Repr

/-- One call to the backend `FilesClient`.  `create` also receives the parsed
file name, mime type and metadata (via `parseFileName` from `util.ts`, which
is outside the sampled sources); none of the claims concern those arguments,
so only the file-kind id is logged. -/
inductive ClientCall
  | create (kind : String)
  | upload (id : String) (kind : String)
  | delete (id : String) (kind : String)
deriving DecidableEq, Repr

/-- Modelled from the spec: `i18nTexts.fileTooLarge` (from `i18n_texts.ts`,
not among the sampled sources) renders the size-limit validation error for
the given maximum size. -/
def fileTooLarge (maxSize : String) : String :=
  "File is too large. Maximum size: " ++ maxSize ++ " bytes."

/-- The observable state of one `UploadState` instance: the batch of records
(`files$$` with the current value of every inner subject), the current values
of the `BehaviorSubject` channels, and emission logs for the channels whose
emission sequence the claims mention. -/
structure CoordState where
  /-- current value of each per-file state subject, in batch order -/
  files : List FileState
  /-- current value of the `error$` behavior subject -/
  errorCh : Option Err
  /-- current value of the `uploading$` behavior subject -/
  uploadingCh : Bool
  /-- emissions of the `done$` subject, oldest first -/
  doneLog : List (Option (List DoneNote))
  /-- emissions pushed into `error$`, oldest first -/
  errorLog : List (Option Err)
  /-- number of emissions of the `clear$` subject -/
  clearLog : Nat
  /-- calls issued to the backend client, oldest first -/
  calls : List ClientCall
deriving DecidableEq, Repr

/-- The state of a freshly constructed `UploadState`. -/
def initialState : CoordState :=
  { files := [], errorCh := none, uploadingCh := false,
    doneLog := [], errorLog := [], clearLog := 0, calls := [] }

/-- `files.find(file => Boolean(file.error))` of the `error$` derivation. -/
def firstErrored (files : List FileState) : Option FileState :=
  files.find? (fun f => f.error.isSome)

/-- `files.every(file => file.status === 'uploaded')` of the `done$`
derivation. -/
def allUploaded (files : List FileState) : Bool :=
  files.all (fun f => f.status == Status.uploaded)

/-- `files.some(file => file.status === 'uploading')` of the `uploading$`
derivation. -/
def anyUploading (files : List FileState) : Bool :=
  files.any (fun f => f.status == Status.uploading)

/-- `files.map(file => ({id: file.id!, kind: this.fileKind.id}))` of the
`done$` derivation. -/
def doneNotes (kindId : String) (files : List FileState) : List DoneNote :=
  files.map (fun f => { id := f.id, kind := kindId })

/-- One synchronous pass of the three derived subscriptions the constructor
attaches to `latestFiles$`; runs after every emission of
`combineLatest(files$)`, i.e. after every record mutation while the batch is
non-empty:

* `uploading$` receives `anyUploading` (through `distinctUntilChanged`, which
  only suppresses duplicate emissions and does not change the stored value);
* `error$` receives the error of the first errored record, with
  `filter(Boolean)` dropping the emission when there is none;
* `done$` receives the `{id, kind}` list when the batch is non-empty and
  every record is `uploaded`. -/
def recompute (kindId : String) (s : CoordState) : CoordState :=
  let s1 := { s with uploadingCh := anyUploading s.files }
  let s2 :=
    match firstErrored s1.files with
    | some f => { s1 with errorCh := f.error, errorLog := s1.errorLog ++ [f.error] }
    | none => s1
  if !s2.files.isEmpty && allUploaded s2.files then
    { s2 with doneLog := s2.doneLog ++ [some (doneNotes kindId s2.files)] }
  else s2

/-- `UploadState.validateFiles`. -/
def validateFiles (k : FileKind) (files : List FileHandle) : Option String :=
  match k.maxSizeBytes with
  | some maxSize =>
    if files.any (fun f => f.size > maxSize) then
      some (fileTooLarge (toString maxSize))
    else none
  | none => none

/-- `UploadState.setFiles`.  Throws (`Except.error`) before any mutation when
an upload is in progress.  For an empty list it pushes `undefined` into
`done$` and `error$`; then the batch is replaced by fresh `idle` records, all
carrying the validation error if any file is oversized.  `combineLatest` of
the new (non-empty) batch emits once, re-running the derivations. -/
def setFiles (k : FileKind) (s : CoordState) (files : List FileHandle) :
    Except String CoordState :=
  if s.uploadingCh then
    Except.error "Cannot update files while uploading"
  else
    let s1 :=
      if files.isEmpty then
        { s with doneLog := s.doneLog ++ [none],
                 errorCh := none, errorLog := s.errorLog ++ [none] }
      else s
    let validationError := validateFiles k files
    let newFiles : List FileState := files.map (fun f =>
      { file := f, status := Status.idle, id := none,
        error := validationError.map Err.mk })
    let s2 := { s1 with files := newFiles }
    Except.ok (if newFiles.isEmpty then s2 else recompute k.id s2)

/-- `UploadState.abort`.  Throws when no upload is in progress; otherwise it
fires `abort$`, whose effect on each in-flight attempt is modelled by the
`Outcome.aborted` case of `finishAttempt`. -/
def abort (s : CoordState) : Except String CoordState :=
  if !s.uploadingCh then Except.error "No upload in progress"
  else Except.ok s

/-- `UploadState.clear`: `setFiles([])` followed by one `clear$` emission
(the emission is not reached when `setFiles` throws). -/
def clear (k : FileKind) (s : CoordState) : Except String CoordState :=
  (setFiles k s []).map (fun s1 => { s1 with clearLog := s1.clearLog + 1 })

/-- How one record's attempt settles, abstracting the backend promises and
the `race` against `abort$` in `uploadFile`:

* `success id`: `client.create` resolved with file id `id` and
  `client.upload` resolved;
* `createFail e`: `client.create` rejected with `e` (no upload target, so no
  `client.upload` call and no cleanup delete);
* `uploadFail id e`: `create` resolved with `id`, then `client.upload`
  rejected with `e`;
* `aborted id`: `create` resolved with `id`, then `abort$` won the race,
  raising the internal `Abort!` error (the `client.upload` promise had
  already been created eagerly as an argument of `race`). -/
inductive Outcome
  | success (id : String)
  | createFail (e : Err)
  | uploadFail (id : String) (e : Err)
  | aborted (id : String)
deriving DecidableEq, Repr

/-- `['idle', 'upload_failed'].includes(status)`: the statuses for which
`uploadFile` runs an attempt rather than returning `of(undefined)`. -/
def attempted (st : Status) : Bool :=
  st == Status.idle || st == Status.upload_failed

/-- The synchronous part of `uploadFile` for record `i`: skip when the status
is not `idle`/`upload_failed`; otherwise set
`{status: 'uploading', error: undefined}` (which re-runs the derivations) and
issue the `client.create` call. -/
def startAttempt (kindId : String) (s : CoordState) (i : Nat) : CoordState :=
  match s.files[i]? with
  | none => s
  | some fs =>
    if attempted fs.status then
      let fs1 : FileState := { fs with status := Status.uploading, error := none }
      let s1 := { s with files := s.files.set i fs1 }
      let s2 := recompute kindId s1
      { s2 with calls := s2.calls ++ [ClientCall.create kindId] }
    else s

/-- The terminal record state `uploadFile` writes for outcome `o`, starting
from the record value `fs` at settlement time: the `map` step on success, the
`catchError` step otherwise (`error` is recorded unless the failure is the
internal `Abort!` cancellation, which stays silent). -/
def terminalOf (fs : FileState) (o : Outcome) : FileState :=
  match o with
  | Outcome.success id => { fs with status := Status.uploaded, id := some id }
  | Outcome.createFail e =>
    { fs with status := Status.upload_failed,
              error := if e.message == "Abort!" then none else some e }
  | Outcome.uploadFail _ e =>
    { fs with status := Status.upload_failed,
              error := if e.message == "Abort!" then none else some e }
  | Outcome.aborted _ =>
    { fs with status := Status.upload_failed, error := none }

/-- The asynchronous rest of `uploadFile` for record `i`, settling with
outcome `o`: the `client.upload` call when `create` resolved, the terminal
`setState` (which re-runs the derivations), and the `finalize` cleanup that
deletes the remote placeholder when the attempt errored or was aborted after
`create` resolved. -/
def finishAttempt (kindId : String) (s : CoordState) (i : Nat) (o : Outcome) :
    CoordState :=
  match s.files[i]? with
  | none => s
  | some fs =>
    match o with
    | Outcome.createFail e =>
      recompute kindId
        { s with files := s.files.set i (terminalOf fs (Outcome.createFail e)) }
    | Outcome.success id =>
      recompute kindId
        { s with calls := s.calls ++ [ClientCall.upload id kindId],
                 files := s.files.set i (terminalOf fs (Outcome.success id)) }
    | Outcome.uploadFail id e =>
      let s1 := recompute kindId
        { s with calls := s.calls ++ [ClientCall.upload id kindId],
                 files := s.files.set i (terminalOf fs (Outcome.uploadFail id e)) }
      { s1 with calls := s1.calls ++ [ClientCall.delete id kindId] }
    | Outcome.aborted id =>
      let s1 := recompute kindId
        { s with calls := s.calls ++ [ClientCall.upload id kindId],
                 files := s.files.set i (terminalOf fs (Outcome.aborted id)) }
      { s1 with calls := s1.calls ++ [ClientCall.delete id kindId] }

/-- `forkJoin(files$.map(file$ => this.uploadFile(...)))` subscribes eagerly:
the synchronous prefix of every `uploadFile` runs once per record, in batch
order. -/
def phaseA (kindId : String) (s : CoordState) : CoordState :=
  (List.range s.files.length).foldl (fun acc i => startAttempt kindId acc i) s

/-- The pending attempts then settle one by one, in the order given by
`order` (a permutation of the attempted indices, left abstract because it
depends on backend timing); `outcomes` gives each record's settlement. -/
def phaseB (kindId : String) (outcomes : List Outcome) (order : List Nat)
    (s : CoordState) : CoordState :=
  order.foldl (fun acc i =>
    match outcomes[i]? with
    | some o => finishAttempt kindId acc i o
    | none => acc) s

/-- The indices of the records `uploadFile` actually attempts. -/
def attemptedIdx (files : List FileState) : List Nat :=
  (List.range files.length).filter (fun i =>
    match files[i]? with
    | some fs => attempted fs.status
    | none => false)

/-- What `UploadState.upload` produces: the coordinator state after the cycle
(including the `finalize` auto-clear when `allowRepeatedUploads` is set), the
per-record states at the moment `forkJoin` completed (the values observers of
the record subjects see when the completion signal fires, before any
auto-clear), and the number of values the returned observable emits. -/
structure UploadResult where
  state : CoordState
  settledFiles : List FileState
  emitted : Nat
deriving DecidableEq, Repr

/-- `UploadState.upload`.  Throws (`Except.error`) when already uploading.
Otherwise the current batch is taken (`take(1)`), every record's `uploadFile`
runs its synchronous prefix (`phaseA`), the pending attempts settle in
`order` (`phaseB`), `forkJoin` emits one (mapped-to-`undefined`) value unless
the batch was empty (`forkJoin([])` completes without emitting), and
`finalize` auto-clears when `allowRepeatedUploads` is set (an exception from
that `clear` would propagate, modelled by the `Except.error` branch). -/
def upload (k : FileKind) (opts : UploadOptions) (s : CoordState)
    (outcomes : List Outcome) (order : List Nat) : Except String UploadResult :=
  if s.uploadingCh then
    Except.error "Upload already in progress"
  else
    let sA := phaseA k.id s
    let sB := phaseB k.id outcomes order sA
    let emitted := if s.files.isEmpty then 0 else 1
    match (if opts.allowRepeatedUploads then clear k sB else Except.ok sB) with
    | Except.ok sFin =>
      Except.ok { state := sFin, settledFiles := sB.files, emitted := emitted }
    | Except.error e => Except.error e

/-- Consistency of the `uploading$` behavior subject with the batch: its
stored value is the `anyUploading` of the current records.  This holds after
every `recompute` and is an invariant of the upload cycle. -/
def uploadingOk (s : CoordState) : Prop :=
  s.uploadingCh = anyUploading s.files

/-! ## Basic lemmas about the derived-stream pass (`recompute`) -/

theorem recompute_files (kindId : String) (s : CoordState) :
    (recompute kindId s).files = s.files := by
  cases h : firstErrored s.files <;>
    simp only [recompute, h] <;> split <;> rfl

theorem recompute_calls (kindId : String) (s : CoordState) :
    (recompute kindId s).calls = s.calls := by
  cases h : firstErrored s.files <;>
    simp only [recompute, h] <;> split <;> rfl

theorem recompute_clearLog (kindId : String) (s : CoordState) :
    (recompute kindId s).clearLog = s.clearLog := by
  cases h : firstErrored s.files <;>
    simp only [recompute, h] <;> split <;> rfl

theorem recompute_uploadingCh (kindId : String) (s : CoordState) :
    (recompute kindId s).uploadingCh = anyUploading s.files := by
  cases h : firstErrored s.files <;>
    simp only [recompute, h] <;> split <;> rfl

theorem uploadingOk_recompute (kindId : String) (s : CoordState) :
    uploadingOk (recompute kindId s) := by
  unfold uploadingOk
  rw [recompute_uploadingCh, recompute_files]

theorem recompute_errorCh_of_none (kindId : String) (s : CoordState)
    (h : firstErrored s.files = none) :
    (recompute kindId s).errorCh = s.errorCh ∧
      (recompute kindId s).errorLog = s.errorLog := by
  simp only [recompute, h]
  split <;> exact ⟨rfl, rfl⟩

theorem recompute_errorCh_of_some (kindId : String) (s : CoordState)
    (f : FileState) (h : firstErrored s.files = some f) :
    (recompute kindId s).errorCh = f.error ∧
      (recompute kindId s).errorLog = s.errorLog ++ [f.error] := by
  simp only [recompute, h]
  split <;> exact ⟨rfl, rfl⟩

theorem recompute_doneLog (kindId : String) (s : CoordState) :
    (recompute kindId s).doneLog =
      if !s.files.isEmpty && allUploaded s.files then
        s.doneLog ++ [some (doneNotes kindId s.files)]
      else s.doneLog := by
  cases h : firstErrored s.files <;>
    simp only [recompute, h] <;> split <;> rfl

/-! ## Pointwise lemmas about the aggregate predicates -/

theorem not_allUploaded_of_get (files : List FileState) (j : Nat)
    (fs : FileState) (h : files[j]? = some fs)
    (hst : fs.status ≠ Status.uploaded) : allUploaded files = false := by
  cases hall : allUploaded files with
  | false => rfl
  | true =>
    have := List.all_eq_true.mp hall fs (List.getElem?_mem h)
    exact absurd (by simpa using this) hst

theorem allUploaded_of_pointwise (files : List FileState)
    (h : ∀ fs ∈ files, fs.status = Status.uploaded) :
    allUploaded files = true :=
  List.all_eq_true.mpr (fun fs hfs => by simpa using h fs hfs)

theorem anyUploading_eq_false_of_pointwise (files : List FileState)
    (h : ∀ fs ∈ files, fs.status ≠ Status.uploading) :
    anyUploading files = false := by
  cases hany : anyUploading files with
  | false => rfl
  | true =>
    obtain ⟨fs, hfs, hst⟩ := List.any_eq_true.mp hany
    exact absurd (by simpa using hst) (h fs hfs)

theorem firstErrored_eq_none (files : List FileState)
    (h : ∀ fs ∈ files, fs.error = none) : firstErrored files = none :=
  List.find?_eq_none.mpr (fun fs hfs => by simp [h fs hfs])

theorem mem_iff_getElem? {α : Type} (l : List α) (a : α) :
    a ∈ l ↔ ∃ i : Nat, l[i]? = some a := by
  constructor
  · intro h
    obtain ⟨i, hi, rfl⟩ := List.mem_iff_getElem.mp h
    exact ⟨i, List.getElem?_eq_some.mpr ⟨hi, rfl⟩⟩
  · rintro ⟨i, hi⟩
    exact List.getElem?_mem hi

/-! ## Characterization of `setFiles`, `clear` and the guards -/

theorem setFiles_uploading_error (k : FileKind) (s : CoordState)
    (files : List FileHandle) (h : s.uploadingCh = true) :
    setFiles k s files = Except.error "Cannot update files while uploading" := by
  simp [setFiles, h]

theorem setFiles_nil_eq (k : FileKind) (s : CoordState)
    (h : s.uploadingCh = false) :
    setFiles k s [] = Except.ok
      { s with files := [], errorCh := none,
               doneLog := s.doneLog ++ [none],
               errorLog := s.errorLog ++ [none] } := by
  simp [setFiles, h]

theorem setFiles_cons_eq (k : FileKind) (s : CoordState)
    (files : List FileHandle) (h : s.uploadingCh = false) (hne : files ≠ []) :
    setFiles k s files = Except.ok (recompute k.id
      { s with files := files.map (fun f =>
          { file := f, status := Status.idle, id := none,
            error := (validateFiles k files).map Err.mk }) }) := by
  have hempty : files.isEmpty = false := by
    cases files with
    | nil => exact absurd rfl hne
    | cons a l => rfl
  have hempty2 : (files.map (fun f =>
      ({ file := f, status := Status.idle, id := none,
         error := (validateFiles k files).map Err.mk } : FileState))).isEmpty = false := by
    cases files with
    | nil => exact absurd rfl hne
    | cons a l => rfl
  simp [setFiles, h, hempty, hempty2]

theorem clear_uploading_error (k : FileKind) (s : CoordState)
    (h : s.uploadingCh = true) :
    clear k s = Except.error "Cannot update files while uploading" := by
  simp [clear, setFiles_uploading_error k s [] h, Except.map]

theorem clear_eq (k : FileKind) (s : CoordState) (h : s.uploadingCh = false) :
    clear k s = Except.ok
      { s with files := [], errorCh := none,
               doneLog := s.doneLog ++ [none],
               errorLog := s.errorLog ++ [none],
               clearLog := s.clearLog + 1 } := by
  simp [clear, setFiles_nil_eq k s h]
  rfl

/-! ## Claim C1 -/

/-- C1 (amended): for every batch passed to `setFiles` that contains at least
one file whose size exceeds the configured maximum, after `setFiles` returns
every record's status is `idle` (not `upload_failed`) with the size-limit
error recorded on every record, and no backend client call (create, upload,
or delete) has occurred. -/
theorem setFiles_oversized_marks_records (k : FileKind) (s : CoordState)
    (files : List FileHandle) (m : Nat)
    (hup : s.uploadingCh = false)
    (hmax : k.maxSizeBytes = some m)
    (hbig : ∃ f ∈ files, m < f.size) :
    ∃ r, setFiles k s files = Except.ok r ∧
      r.files.length = files.length ∧
      (∀ fs ∈ r.files, fs.status = Status.idle ∧
        fs.error = some { message := fileTooLarge (toString m) }) ∧
      r.calls = s.calls := by
  obtain ⟨f, hf, hfs⟩ := hbig
  have hne : files ≠ [] := by
    intro hnil
    rw [hnil] at hf
    exact absurd hf (List.not_mem_nil f)
  have hval : validateFiles k files = some (fileTooLarge (toString m)) := by
    have hany : files.any (fun f => decide (f.size > m)) = true :=
      List.any_eq_true.mpr ⟨f, hf, decide_eq_true hfs⟩
    simp [validateFiles, hmax, hany]
  refine ⟨_, setFiles_cons_eq k s files hup hne, ?_, ?_, ?_⟩
  · rw [recompute_files]
    exact List.length_map _ _
  · intro fs hfs2
    rw [recompute_files] at hfs2
    obtain ⟨g, hg, rfl⟩ := List.mem_map.mp hfs2
    exact ⟨rfl, by rw [hval]; rfl⟩
  · rw [recompute_calls]

/-- C1 counterexample: a batch with a single 20-byte file against a 10-byte
limit; after `setFiles` the record's status is `idle`, not `upload_failed`
as the claim states. -/
theorem setFiles_oversized_status_counterexample :
    (setFiles { id := "image", maxSizeBytes := some 10 } initialState
        [{ name := "a.png", size := 20 }]).map
        (fun r => r.files.map FileState.status) = Except.ok [Status.idle] ∧
      Status.idle ≠ Status.upload_failed := by
  constructor
  · rfl
  · intro h
    exact Status.noConfusion h

/-- C1 witness: the amended theorem applied at a concrete oversized batch. -/
theorem setFiles_oversized_marks_records_witness :
    ({ id := "image", maxSizeBytes := some 10 } : FileKind).maxSizeBytes = some 10 ∧
    (∃ f ∈ [({ name := "a.png", size := 20 } : FileHandle)], 10 < f.size) ∧
    ∃ r, setFiles { id := "image", maxSizeBytes := some 10 } initialState
        [{ name := "a.png", size := 20 }] = Except.ok r ∧
      r.files.length = 1 ∧
      (∀ fs ∈ r.files, fs.status = Status.idle ∧
        fs.error = some { message := fileTooLarge (toString 10) }) ∧
      r.calls = [] :=
  ⟨rfl, ⟨{ name := "a.png", size := 20 }, by decide⟩,
    setFiles_oversized_marks_records { id := "image", maxSizeBytes := some 10 }
      initialState [{ name := "a.png", size := 20 }] 10 rfl rfl
      ⟨{ name := "a.png", size := 20 }, by decide⟩⟩

/-! ## Claim C5 -/

/-- C5: for every batch state in which `isUploading()` is true, calling
`setFiles` throws a synchronous usage error.  The throw is the first
statement of `setFiles`, so no batch record, error channel or done channel
is touched: the embedding returns `Except.error` without producing any
successor state. -/
theorem setFiles_while_uploading_throws (k : FileKind) (s : CoordState)
    (files : List FileHandle) (h : s.uploadingCh = true) :
    setFiles k s files = Except.error "Cannot update files while uploading" :=
  setFiles_uploading_error k s files h

/-- C5 witness: a concrete mid-upload state. -/
theorem setFiles_while_uploading_throws_witness :
    ({ files := [{ file := { name := "a", size := 1 },
                   status := Status.uploading, id := none, error := none }],
       errorCh := none, uploadingCh := true, doneLog := [], errorLog := [],
       clearLog := 0, calls := [ClientCall.create "image"] } : CoordState).uploadingCh
        = true ∧
    setFiles { id := "image", maxSizeBytes := none }
      { files := [{ file := { name := "a", size := 1 },
                    status := Status.uploading, id := none, error := none }],
        errorCh := none, uploadingCh := true, doneLog := [], errorLog := [],
        clearLog := 0, calls := [ClientCall.create "image"] }
      [{ name := "b", size := 2 }]
      = Except.error "Cannot update files while uploading" :=
  ⟨rfl, setFiles_while_uploading_throws _ _ _ rfl⟩

/-! ## Claim C6 -/

/-- C6 (amended): `clear()` is equivalent to `setFiles([])` plus one emission
of the clear notification; like `setFiles`, it throws a usage error while an
upload is in progress (it is not usable at any time).  When no upload is in
progress it resets the batch to empty and clears the error and done state
regardless of prior status. -/
theorem clear_resets_state (k : FileKind) (s : CoordState) :
    (s.uploadingCh = false →
      ∃ r, clear k s = Except.ok r ∧ r.files = [] ∧ r.errorCh = none ∧
        r.doneLog = s.doneLog ++ [none] ∧ r.errorLog = s.errorLog ++ [none] ∧
        r.clearLog = s.clearLog + 1 ∧ r.calls = s.calls) ∧
    (s.uploadingCh = true →
      clear k s = Except.error "Cannot update files while uploading") := by
  constructor
  · intro h
    exact ⟨_, clear_eq k s h, rfl, rfl, rfl, rfl, rfl, rfl⟩
  · intro h
    exact clear_uploading_error k s h

/-- C6 counterexample: the claim says `clear()` is usable at any time,
including while an upload is in progress; at a concrete mid-upload state
`clear` throws the `setFiles` usage error instead. -/
theorem clear_while_uploading_counterexample :
    clear { id := "image", maxSizeBytes := none }
      { files := [{ file := { name := "a", size := 1 },
                    status := Status.uploading, id := none, error := none }],
        errorCh := none, uploadingCh := true, doneLog := [], errorLog := [],
        clearLog := 0, calls := [ClientCall.create "image"] }
      = Except.error "Cannot update files while uploading" := by rfl

/-- C6 witness: the amended theorem applied at a concrete idle state and at a
concrete mid-upload state. -/
theorem clear_resets_state_witness :
    (∃ r, clear { id := "k", maxSizeBytes := none }
        { files := [{ file := { name := "a", size := 1 },
                      status := Status.uploaded, id := some "id1", error := none }],
          errorCh := some { message := "old" }, uploadingCh := false,
          doneLog := [none], errorLog := [], clearLog := 0, calls := [] }
        = Except.ok r ∧ r.files = [] ∧ r.errorCh = none ∧
        r.doneLog = [none] ++ [none] ∧ r.errorLog = [] ++ [none] ∧
        r.clearLog = 0 + 1 ∧ r.calls = []) ∧
    clear { id := "k", maxSizeBytes := none }
      { files := [], errorCh := none, uploadingCh := true, doneLog := [],
        errorLog := [], clearLog := 0, calls := [] }
      = Except.error "Cannot update files while uploading" :=
  ⟨(clear_resets_state _ _).1 rfl, (clear_resets_state _ _).2 rfl⟩

/-! ## Claim C7 -/

/-- C7: for every state in which `isUploading()` is false, calling `abort()`
throws a synchronous usage error, and for every state in which
`isUploading()` is true, calling `upload()` throws a synchronous usage
error. -/
theorem abort_and_upload_guards (k : FileKind) (opts : UploadOptions)
    (s t : CoordState) (outcomes : List Outcome) (order : List Nat)
    (hs : s.uploadingCh = false) (ht : t.uploadingCh = true) :
    abort s = Except.error "No upload in progress" ∧
    upload k opts t outcomes order = Except.error "Upload already in progress" := by
  constructor
  · simp [abort, hs]
  · simp [upload, ht]

/-- C7 witness: the guards applied at a concrete idle state and a concrete
mid-upload state. -/
theorem abort_and_upload_guards_witness :
    abort initialState = Except.error "No upload in progress" ∧
    upload { id := "k", maxSizeBytes := none } { allowRepeatedUploads := false }
      { files := [], errorCh := none, uploadingCh := true, doneLog := [],
        errorLog := [], clearLog := 0, calls := [] } [] []
      = Except.error "Upload already in progress" :=
  abort_and_upload_guards { id := "k", maxSizeBytes := none }
    { allowRepeatedUploads := false } initialState
    { files := [], errorCh := none, uploadingCh := true, doneLog := [],
      errorLog := [], clearLog := 0, calls := [] } [] [] rfl rfl

/-! ## Claim C8 -/

/-- C8: at every recomputation of the aggregate state, if some record carries
an error then the error channel equals the error of the first record in
batch order that carries one; if no record carries an error the channel (and
its emission log) is left unchanged — it is never auto-cleared on success of
other records; and replacing the batch by the empty list resets it to
`undefined`. -/
theorem error_channel_spec (kindId : String) (k : FileKind) (s : CoordState) :
    (∀ f, firstErrored s.files = some f →
      (recompute kindId s).errorCh = f.error ∧ f.error.isSome = true) ∧
    (firstErrored s.files = none →
      (recompute kindId s).errorCh = s.errorCh ∧
      (recompute kindId s).errorLog = s.errorLog) ∧
    (s.uploadingCh = false →
      ∃ r, setFiles k s [] = Except.ok r ∧ r.errorCh = none) := by
  refine ⟨?_, ?_, ?_⟩
  · intro f hf
    refine ⟨(recompute_errorCh_of_some kindId s f hf).1, ?_⟩
    have := List.find?_some hf
    simpa using this
  · intro hf
    exact recompute_errorCh_of_none kindId s hf
  · intro h
    exact ⟨_, setFiles_nil_eq k s h, rfl⟩

/-- C8 witness: the error-channel characterization applied at a concrete
state whose second and third records carry errors (the channel reports the
second record's error, the first in batch order that carries one), at a
concrete error-free state, and at a concrete batch replacement by the empty
list. -/
theorem error_channel_spec_witness :
    (recompute "k"
      { files := [{ file := { name := "a", size := 1 },
                    status := Status.uploaded, id := some "i1", error := none },
                  { file := { name := "b", size := 1 },
                    status := Status.upload_failed, id := none,
                    error := some { message := "e1" } },
                  { file := { name := "c", size := 1 },
                    status := Status.upload_failed, id := none,
                    error := some { message := "e2" } }],
        errorCh := none, uploadingCh := false, doneLog := [], errorLog := [],
        clearLog := 0, calls := [] }).errorCh = some { message := "e1" } ∧
    (recompute "k"
      { files := [{ file := { name := "a", size := 1 },
                    status := Status.uploaded, id := some "i1", error := none }],
        errorCh := some { message := "stale" }, uploadingCh := false,
        doneLog := [], errorLog := [], clearLog := 0,
        calls := [] }).errorCh = some { message := "stale" } ∧
    ∃ r, setFiles { id := "k", maxSizeBytes := none }
        { files := [], errorCh := some { message := "stale" },
          uploadingCh := false, doneLog := [], errorLog := [], clearLog := 0,
          calls := [] } [] = Except.ok r ∧ r.errorCh = none := by
  refine ⟨?_, ?_, ?_⟩
  · have h := error_channel_spec "k" { id := "k", maxSizeBytes := none }
      { files := [{ file := { name := "a", size := 1 },
                    status := Status.uploaded, id := some "i1", error := none },
                  { file := { name := "b", size := 1 },
                    status := Status.upload_failed, id := none,
                    error := some { message := "e1" } },
                  { file := { name := "c", size := 1 },
                    status := Status.upload_failed, id := none,
                    error := some { message := "e2" } }],
        errorCh := none, uploadingCh := false, doneLog := [], errorLog := [],
        clearLog := 0, calls := [] }
    exact (h.1 _ rfl).1
  · have h := error_channel_spec "k" { id := "k", maxSizeBytes := none }
      { files := [{ file := { name := "a", size := 1 },
                    status := Status.uploaded, id := some "i1", error := none }],
        errorCh := some { message := "stale" }, uploadingCh := false,
        doneLog := [], errorLog := [], clearLog := 0, calls := [] }
    exact (h.2.1 rfl).1
  · have h := error_channel_spec "k" { id := "k", maxSizeBytes := none }
      { files := [], errorCh := some { message := "stale" },
        uploadingCh := false, doneLog := [], errorLog := [], clearLog := 0,
        calls := [] }
    exact h.2.2 rfl

/-! ## Claim C9 -/

theorem phaseA_of_files_nil (kindId : String) (s : CoordState)
    (h : s.files = []) : phaseA kindId s = s := by
  simp [phaseA, h]

theorem phaseB_of_files_nil (kindId : String) (outcomes : List Outcome)
    (order : List Nat) (t : CoordState) (h : t.files = []) :
    phaseB kindId outcomes order t = t := by
  induction order generalizing t with
  | nil => rfl
  | cons i rest ih =>
    have hstep : (match outcomes[i]? with
        | some o => finishAttempt kindId t i o
        | none => t) = t := by
      cases outcomes[i]? with
      | none => rfl
      | some o => simp [finishAttempt, h]
    simp only [phaseB, List.foldl_cons]
    rw [show (match outcomes[i]? with
        | some o => finishAttempt kindId t i o
        | none => t) = t from hstep] at *
    exact ih t h

/-- C9: calling `upload` on an empty batch makes no backend client calls,
fires no done notification for that cycle (at most the `undefined` emitted by
the auto-clear when repeated uploads are allowed), and the returned
completion observable completes without emitting a value
(`forkJoin([])`). -/
theorem upload_empty_batch (k : FileKind) (opts : UploadOptions)
    (s : CoordState) (outcomes : List Outcome) (order : List Nat)
    (hup : s.uploadingCh = false) (hfiles : s.files = []) :
    ∃ r, upload k opts s outcomes order = Except.ok r ∧
      r.state.calls = s.calls ∧ r.emitted = 0 ∧
      r.state.doneLog = s.doneLog ++
        (if opts.allowRepeatedUploads then [none] else []) := by
  have hA : phaseA k.id s = s := phaseA_of_files_nil k.id s hfiles
  have hB : phaseB k.id outcomes order s = s :=
    phaseB_of_files_nil k.id outcomes order s hfiles
  have hempty : s.files.isEmpty = true := by rw [hfiles]; rfl
  cases hrep : opts.allowRepeatedUploads with
  | false =>
    refine ⟨{ state := s, settledFiles := s.files, emitted := 0 }, ?_, rfl, rfl, by simp⟩
    simp [upload, hup, hA, hB, hrep, hempty]
  | true =>
    refine ⟨{ state :=
                { s with files := [], errorCh := none,
                         doneLog := s.doneLog ++ [none],
                         errorLog := s.errorLog ++ [none],
                         clearLog := s.clearLog + 1 },
              settledFiles := s.files, emitted := 0 },
      ?_, rfl, rfl, by simp⟩
    simp [upload, hup, hA, hB, hrep, hempty, clear_eq k s hup]

/-- C9 witness: an empty batch in a fresh coordinator, with and without
repeated uploads allowed. -/
theorem upload_empty_batch_witness :
    (∃ r, upload { id := "k", maxSizeBytes := none }
        { allowRepeatedUploads := false } initialState [] [] = Except.ok r ∧
      r.state.calls = [] ∧ r.emitted = 0 ∧
      r.state.doneLog = [] ++ ([] : List (Option (List DoneNote)))) ∧
    (∃ r, upload { id := "k", maxSizeBytes := none }
        { allowRepeatedUploads := true } initialState [] [] = Except.ok r ∧
      r.state.calls = [] ∧ r.emitted = 0 ∧
      r.state.doneLog = [] ++ [(none : Option (List DoneNote))]) := by
  constructor
  · exact upload_empty_batch { id := "k", maxSizeBytes := none }
      { allowRepeatedUploads := false } initialState [] [] rfl rfl
  · exact upload_empty_batch { id := "k", maxSizeBytes := none }
      { allowRepeatedUploads := true } initialState [] [] rfl rfl

/-! ## Per-step lemmas for the two halves of `uploadFile` -/

theorem isEmpty_eq_false_of_ne_nil {α : Type} (l : List α) (h : l ≠ []) :
    l.isEmpty = false := by
  cases l with
  | nil => exact absurd rfl h
  | cons a t => rfl

theorem startAttempt_of_get_none (kindId : String) (s : CoordState) (i : Nat)
    (h : s.files[i]? = none) : startAttempt kindId s i = s := by
  simp [startAttempt, h]

theorem startAttempt_of_not_attempted (kindId : String) (s : CoordState)
    (i : Nat) (fs : FileState) (h : s.files[i]? = some fs)
    (ha : attempted fs.status = false) : startAttempt kindId s i = s := by
  simp [startAttempt, h, ha]

theorem startAttempt_files_of_attempted (kindId : String) (s : CoordState)
    (i : Nat) (fs : FileState) (h : s.files[i]? = some fs)
    (ha : attempted fs.status = true) :
    (startAttempt kindId s i).files =
      s.files.set i { fs with status := Status.uploading, error := none } := by
  simp [startAttempt, h, ha, recompute_files]

theorem startAttempt_length (kindId : String) (s : CoordState) (i : Nat) :
    (startAttempt kindId s i).files.length = s.files.length := by
  cases h : s.files[i]? with
  | none => rw [startAttempt_of_get_none kindId s i h]
  | some fs =>
    cases ha : attempted fs.status with
    | false => rw [startAttempt_of_not_attempted kindId s i fs h ha]
    | true =>
      rw [startAttempt_files_of_attempted kindId s i fs h ha]
      exact List.length_set s.files i _

theorem startAttempt_doneLog (kindId : String) (s : CoordState) (i : Nat) :
    (startAttempt kindId s i).doneLog = s.doneLog := by
  cases h : s.files[i]? with
  | none => rw [startAttempt_of_get_none kindId s i h]
  | some fs =>
    cases ha : attempted fs.status with
    | false => rw [startAttempt_of_not_attempted kindId s i fs h ha]
    | true =>
      have hlt : i < s.files.length := (List.getElem?_eq_some.mp h).1
      have hset : (s.files.set i { fs with status := Status.uploading, error := none })[i]? = some { fs with status := Status.uploading, error := none } :=
        List.getElem?_set_eq_of_lt _ hlt
      have hall : allUploaded (s.files.set i { fs with status := Status.uploading, error := none }) = false :=
        not_allUploaded_of_get _ i _ hset (by intro hc; cases hc)
      simp [startAttempt, h, ha, recompute_doneLog, hall]

theorem startAttempt_clearLog (kindId : String) (s : CoordState) (i : Nat) :
    (startAttempt kindId s i).clearLog = s.clearLog := by
  cases h : s.files[i]? with
  | none => rw [startAttempt_of_get_none kindId s i h]
  | some fs =>
    cases ha : attempted fs.status with
    | false => rw [startAttempt_of_not_attempted kindId s i fs h ha]
    | true => simp [startAttempt, h, ha, recompute_clearLog]

theorem startAttempt_calls_mem (kindId : String) (s : CoordState) (i : Nat)
    (c : ClientCall) (hc : c ∈ s.calls) : c ∈ (startAttempt kindId s i).calls := by
  cases h : s.files[i]? with
  | none => rw [startAttempt_of_get_none kindId s i h]; exact hc
  | some fs =>
    cases ha : attempted fs.status with
    | false => rw [startAttempt_of_not_attempted kindId s i fs h ha]; exact hc
    | true =>
      simp only [startAttempt, h, ha, if_true]
      rw [recompute_calls]
      exact List.mem_append_left _ hc

theorem uploadingOk_startAttempt (kindId : String) (s : CoordState) (i : Nat)
    (h : uploadingOk s) : uploadingOk (startAttempt kindId s i) := by
  cases hg : s.files[i]? with
  | none => rw [startAttempt_of_get_none kindId s i hg]; exact h
  | some fs =>
    cases ha : attempted fs.status with
    | false => rw [startAttempt_of_not_attempted kindId s i fs hg ha]; exact h
    | true =>
      have := uploadingOk_recompute kindId
        { s with files := s.files.set i { fs with status := Status.uploading, error := none } }
      simp only [startAttempt, hg, ha, if_true]
      simp only [uploadingOk] at this ⊢
      exact this

theorem startAttempt_noerr (kindId : String) (s : CoordState) (i : Nat)
    (h : ∀ fs ∈ s.files, fs.error = none) :
    (∀ fs ∈ (startAttempt kindId s i).files, fs.error = none) ∧
    (startAttempt kindId s i).errorCh = s.errorCh ∧
    (startAttempt kindId s i).errorLog = s.errorLog := by
  cases hg : s.files[i]? with
  | none => rw [startAttempt_of_get_none kindId s i hg]; exact ⟨h, rfl, rfl⟩
  | some fs =>
    cases ha : attempted fs.status with
    | false =>
      rw [startAttempt_of_not_attempted kindId s i fs hg ha]
      exact ⟨h, rfl, rfl⟩
    | true =>
      have hnew : ∀ fsx ∈ s.files.set i { fs with status := Status.uploading, error := none }, fsx.error = none := by
        intro fsx hfsx
        obtain ⟨j, hj⟩ := (mem_iff_getElem? _ fsx).mp hfsx
        by_cases hij : j = i
        · subst hij
          have hlt : j < s.files.length := by
            have := (List.getElem?_eq_some.mp hj).1
            simpa using this
          rw [List.getElem?_set_eq_of_lt _ hlt] at hj
          cases hj
          rfl
        · rw [List.getElem?_set_ne (fun hh => hij hh.symm)] at hj
          exact h fsx (List.getElem?_mem hj)
      have hfe : firstErrored (s.files.set i { fs with status := Status.uploading, error := none }) = none :=
        firstErrored_eq_none _ hnew
      have hrec := recompute_errorCh_of_none kindId
        { s with files := s.files.set i { fs with status := Status.uploading, error := none } } hfe
      refine ⟨?_, ?_, ?_⟩
      · rw [startAttempt_files_of_attempted kindId s i fs hg ha]
        exact hnew
      · simp only [startAttempt, hg, ha, if_true]
        exact hrec.1
      · simp only [startAttempt, hg, ha, if_true]
        exact hrec.2

theorem finishAttempt_of_get_none (kindId : String) (s : CoordState)
    (i : Nat) (o : Outcome) (h : s.files[i]? = none) :
    finishAttempt kindId s i o = s := by
  simp [finishAttempt, h]

theorem finishAttempt_files (kindId : String) (s : CoordState) (i : Nat)
    (o : Outcome) (fs : FileState) (h : s.files[i]? = some fs) :
    (finishAttempt kindId s i o).files = s.files.set i (terminalOf fs o) := by
  cases o <;> simp [finishAttempt, h, recompute_files, terminalOf]

theorem finishAttempt_length (kindId : String) (s : CoordState) (i : Nat)
    (o : Outcome) : (finishAttempt kindId s i o).files.length = s.files.length := by
  cases h : s.files[i]? with
  | none => rw [finishAttempt_of_get_none kindId s i o h]
  | some fs =>
    rw [finishAttempt_files kindId s i o fs h]
    exact List.length_set s.files i _

theorem finishAttempt_clearLog (kindId : String) (s : CoordState) (i : Nat)
    (o : Outcome) : (finishAttempt kindId s i o).clearLog = s.clearLog := by
  cases h : s.files[i]? with
  | none => rw [finishAttempt_of_get_none kindId s i o h]
  | some fs => cases o <;> simp [finishAttempt, h, recompute_clearLog]

theorem finishAttempt_calls_mem (kindId : String) (s : CoordState) (i : Nat)
    (o : Outcome) (c : ClientCall) (hc : c ∈ s.calls) :
    c ∈ (finishAttempt kindId s i o).calls := by
  cases h : s.files[i]? with
  | none => rw [finishAttempt_of_get_none kindId s i o h]; exact hc
  | some fs =>
    cases o <;> simp [finishAttempt, h, recompute_calls, hc]

theorem finishAttempt_delete_mem_uploadFail (kindId : String) (s : CoordState)
    (i : Nat) (id : String) (e : Err) (fs : FileState)
    (h : s.files[i]? = some fs) :
    ClientCall.delete id kindId
      ∈ (finishAttempt kindId s i (Outcome.uploadFail id e)).calls := by
  simp [finishAttempt, h, recompute_calls]

theorem finishAttempt_delete_mem_aborted (kindId : String) (s : CoordState)
    (i : Nat) (id : String) (fs : FileState) (h : s.files[i]? = some fs) :
    ClientCall.delete id kindId
      ∈ (finishAttempt kindId s i (Outcome.aborted id)).calls := by
  simp [finishAttempt, h, recompute_calls]

theorem uploadingOk_finishAttempt (kindId : String) (s : CoordState) (i : Nat)
    (o : Outcome) (h : uploadingOk s) : uploadingOk (finishAttempt kindId s i o) := by
  cases hg : s.files[i]? with
  | none => rw [finishAttempt_of_get_none kindId s i o hg]; exact h
  | some fs =>
    cases o with
    | createFail e =>
      simp only [finishAttempt, hg]
      exact uploadingOk_recompute _ _
    | success id =>
      simp only [finishAttempt, hg]
      exact uploadingOk_recompute _ _
    | uploadFail id e =>
      simp only [finishAttempt, hg]
      exact uploadingOk_recompute _ _
    | aborted id =>
      simp only [finishAttempt, hg]
      exact uploadingOk_recompute _ _

theorem finishAttempt_doneLog_of_not_all (kindId : String) (s : CoordState)
    (i : Nat) (o : Outcome) (fs : FileState) (h : s.files[i]? = some fs)
    (hall : allUploaded (s.files.set i (terminalOf fs o)) = false) :
    (finishAttempt kindId s i o).doneLog = s.doneLog := by
  cases o <;> simp [finishAttempt, h, recompute_doneLog, terminalOf] at hall ⊢ <;>
    simp [hall]

theorem finishAttempt_doneLog_of_all (kindId : String) (s : CoordState)
    (i : Nat) (o : Outcome) (fs : FileState) (h : s.files[i]? = some fs)
    (hall : allUploaded (s.files.set i (terminalOf fs o)) = true)
    (hne : (s.files.set i (terminalOf fs o)).isEmpty = false) :
    (finishAttempt kindId s i o).doneLog
      = s.doneLog ++ [some (doneNotes kindId (s.files.set i (terminalOf fs o)))] := by
  cases o <;> simp [finishAttempt, h, recompute_doneLog, terminalOf] at hall hne ⊢ <;>
    simp [hall, hne]

theorem finishAttempt_errorCh_of_none (kindId : String) (s : CoordState)
    (i : Nat) (o : Outcome) (fs : FileState) (h : s.files[i]? = some fs)
    (hfe : firstErrored (s.files.set i (terminalOf fs o)) = none) :
    (finishAttempt kindId s i o).errorCh = s.errorCh ∧
    (finishAttempt kindId s i o).errorLog = s.errorLog := by
  cases o with
  | createFail e =>
    simp only [finishAttempt, h]
    exact recompute_errorCh_of_none _ _ hfe
  | success id =>
    simp only [finishAttempt, h]
    exact recompute_errorCh_of_none _ _ hfe
  | uploadFail id e =>
    simp only [finishAttempt, h]
    exact recompute_errorCh_of_none _ _ hfe
  | aborted id =>
    simp only [finishAttempt, h]
    exact recompute_errorCh_of_none _ _ hfe

/-! ## Invariants and characterizations of the two phases of `upload` -/

theorem uploadingOk_foldStart (kindId : String) :
    ∀ (l : List Nat) (s : CoordState), uploadingOk s →
      uploadingOk (l.foldl (fun acc i => startAttempt kindId acc i) s) := by
  intro l
  induction l with
  | nil => intro s h; exact h
  | cons i rest ih =>
    intro s h
    simp only [List.foldl_cons]
    exact ih _ (uploadingOk_startAttempt kindId s i h)

theorem uploadingOk_phaseA (kindId : String) (s : CoordState)
    (h : uploadingOk s) : uploadingOk (phaseA kindId s) :=
  uploadingOk_foldStart kindId _ s h

theorem uploadingOk_phaseB (kindId : String) (outcomes : List Outcome) :
    ∀ (order : List Nat) (t : CoordState), uploadingOk t →
      uploadingOk (phaseB kindId outcomes order t) := by
  intro order
  induction order with
  | nil => intro t h; exact h
  | cons i rest ih =>
    intro t h
    have hstep : uploadingOk (match outcomes[i]? with
        | some o => finishAttempt kindId t i o
        | none => t) := by
      cases outcomes[i]? with
      | none => exact h
      | some o => exact uploadingOk_finishAttempt kindId t i o h
    simp only [phaseB, List.foldl_cons]
    exact ih _ hstep

theorem phaseA_fresh_aux (kindId : String) (s : CoordState)
    (hidle : ∀ fs ∈ s.files, fs.status = Status.idle ∧ fs.error = none) :
    ∀ m : Nat, m ≤ s.files.length →
      (((List.range m).foldl (fun acc i => startAttempt kindId acc i) s).files.length
          = s.files.length) ∧
      (∀ j : Nat,
        ((List.range m).foldl (fun acc i => startAttempt kindId acc i) s).files[j]?
          = if j < m then
              (s.files[j]?).map (fun fs =>
                { fs with status := Status.uploading, error := none })
            else s.files[j]?) ∧
      (((List.range m).foldl (fun acc i => startAttempt kindId acc i) s).doneLog
          = s.doneLog) ∧
      (∀ fs ∈ ((List.range m).foldl (fun acc i => startAttempt kindId acc i) s).files,
        fs.error = none) ∧
      (((List.range m).foldl (fun acc i => startAttempt kindId acc i) s).errorCh
          = s.errorCh) ∧
      (((List.range m).foldl (fun acc i => startAttempt kindId acc i) s).errorLog
          = s.errorLog) ∧
      (((List.range m).foldl (fun acc i => startAttempt kindId acc i) s).clearLog
          = s.clearLog) ∧
      (∀ c ∈ s.calls,
        c ∈ ((List.range m).foldl (fun acc i => startAttempt kindId acc i) s).calls) := by
  intro m
  induction m with
  | zero =>
    intro _
    refine ⟨rfl, ?_, rfl, fun fs h => (hidle fs h).2, rfl, rfl, rfl, fun c hc => hc⟩
    intro j
    simp
  | succ m ih =>
    intro hm
    have hmlt : m < s.files.length := hm
    obtain ⟨ihlen, ihget, ihdone, iherr, ihch, ihlog, ihclear, ihcalls⟩ :=
      ih (Nat.le_of_succ_le hm)
    have hfold : (List.range (m + 1)).foldl (fun acc i => startAttempt kindId acc i) s
        = startAttempt kindId
            ((List.range m).foldl (fun acc i => startAttempt kindId acc i) s) m := by
      rw [List.range_succ, List.foldl_append]
      rfl
    obtain ⟨fs, hfs⟩ : ∃ fs, s.files[m]? = some fs :=
      ⟨s.files[m], List.getElem?_eq_getElem hmlt⟩
    have hfsidle := hidle fs (List.getElem?_mem hfs)
    have hatt : attempted fs.status = true := by rw [hfsidle.1]; rfl
    have hget_t : ((List.range m).foldl (fun acc i => startAttempt kindId acc i) s).files[m]?
        = some fs := by
      have := ihget m
      simp only [Nat.lt_irrefl, if_false] at this
      rw [this, hfs]
    have hstepfiles := startAttempt_files_of_attempted kindId
      ((List.range m).foldl (fun acc i => startAttempt kindId acc i) s) m fs hget_t hatt
    have hnoerr := startAttempt_noerr kindId
      ((List.range m).foldl (fun acc i => startAttempt kindId acc i) s) m iherr
    have hmlt2 : m < ((List.range m).foldl (fun acc i => startAttempt kindId acc i) s).files.length := by
      rw [ihlen]; exact hmlt
    refine ⟨?_, ?_, ?_, ?_, ?_, ?_, ?_, ?_⟩
    · rw [hfold, startAttempt_length, ihlen]
    · intro j
      rw [hfold, hstepfiles]
      rcases Nat.lt_trichotomy j m with h1 | h1 | h1
      · rw [List.getElem?_set_ne (Nat.ne_of_gt h1)]
        have := ihget j
        rw [if_pos h1] at this
        rw [this, if_pos (Nat.lt_succ_of_lt h1)]
      · subst h1
        rw [List.getElem?_set_eq_of_lt _ hmlt2, hfs]
        rw [if_pos (Nat.lt_succ_self j)]
        rfl
      · have hne1 : ¬ j < m + 1 := by omega
        have hne2 : ¬ j < m := by omega
        rw [List.getElem?_set_ne (Nat.ne_of_lt h1)]
        have := ihget j
        rw [if_neg hne2] at this
        rw [this, if_neg hne1]
    · rw [hfold, startAttempt_doneLog, ihdone]
    · rw [hfold]; exact hnoerr.1
    · rw [hfold]; rw [hnoerr.2.1, ihch]
    · rw [hfold]; rw [hnoerr.2.2, ihlog]
    · rw [hfold, startAttempt_clearLog, ihclear]
    · intro c hc
      rw [hfold]
      exact startAttempt_calls_mem kindId _ m c (ihcalls c hc)

theorem phaseA_fresh (kindId : String) (s : CoordState)
    (hidle : ∀ fs ∈ s.files, fs.status = Status.idle ∧ fs.error = none) :
    (phaseA kindId s).files.length = s.files.length ∧
    (∀ j : Nat, j < s.files.length →
      (phaseA kindId s).files[j]? = (s.files[j]?).map (fun fs =>
        { fs with status := Status.uploading, error := none })) ∧
    (phaseA kindId s).doneLog = s.doneLog ∧
    (∀ fs ∈ (phaseA kindId s).files, fs.error = none) ∧
    (phaseA kindId s).errorCh = s.errorCh ∧
    (phaseA kindId s).errorLog = s.errorLog ∧
    (phaseA kindId s).clearLog = s.clearLog ∧
    (∀ c ∈ s.calls, c ∈ (phaseA kindId s).calls) := by
  obtain ⟨h1, h2, h3, h4, h5, h6, h7, h8⟩ :=
    phaseA_fresh_aux kindId s hidle s.files.length (Nat.le_refl _)
  refine ⟨h1, ?_, h3, h4, h5, h6, h7, h8⟩
  intro j hj
  have := h2 j
  rw [if_pos hj] at this
  exact this

theorem phaseB_go (kindId : String) (outcomes : List Outcome) :
    ∀ (order : List Nat) (t : CoordState),
      order.Nodup →
      (∀ j ∈ order, j < t.files.length) →
      (∀ j ∈ order, j < outcomes.length) →
      ((phaseB kindId outcomes order t).files.length = t.files.length) ∧
      (∀ j : Nat, j ∉ order →
        (phaseB kindId outcomes order t).files[j]? = t.files[j]?) ∧
      (∀ j ∈ order, ∀ o, outcomes[j]? = some o →
        (phaseB kindId outcomes order t).files[j]?
          = (t.files[j]?).map (fun fs => terminalOf fs o)) ∧
      (∀ c ∈ t.calls, c ∈ (phaseB kindId outcomes order t).calls) ∧
      (∀ j ∈ order, ∀ id e, outcomes[j]? = some (Outcome.uploadFail id e) →
        ClientCall.delete id kindId ∈ (phaseB kindId outcomes order t).calls) ∧
      (∀ j ∈ order, ∀ id, outcomes[j]? = some (Outcome.aborted id) →
        ClientCall.delete id kindId ∈ (phaseB kindId outcomes order t).calls) ∧
      ((phaseB kindId outcomes order t).clearLog = t.clearLog) := by
  intro order
  induction order with
  | nil =>
    intro t _ _ _
    exact ⟨rfl, fun j _ => rfl, fun j hj => absurd hj (List.not_mem_nil j),
      fun c hc => hc, fun j hj => absurd hj (List.not_mem_nil j),
      fun j hj => absurd hj (List.not_mem_nil j), rfl⟩
  | cons i rest ih =>
    intro t hnodup hlt hlo
    have hii : i < t.files.length := hlt i (List.mem_cons_self i rest)
    have hio : i < outcomes.length := hlo i (List.mem_cons_self i rest)
    obtain ⟨o, ho⟩ : ∃ o, outcomes[i]? = some o :=
      ⟨outcomes[i], List.getElem?_eq_getElem hio⟩
    obtain ⟨fs, hfs⟩ : ∃ fs, t.files[i]? = some fs :=
      ⟨t.files[i], List.getElem?_eq_getElem hii⟩
    have hinotrest : i ∉ rest := (List.nodup_cons.mp hnodup).1
    have hnodup2 : rest.Nodup := (List.nodup_cons.mp hnodup).2
    have hstep : phaseB kindId outcomes (i :: rest) t
        = phaseB kindId outcomes rest (finishAttempt kindId t i o) := by
      simp only [phaseB, List.foldl_cons, ho]
    have hfiles2 := finishAttempt_files kindId t i o fs hfs
    have hlen2 := finishAttempt_length kindId t i o
    have hlt2 : ∀ j ∈ rest, j < (finishAttempt kindId t i o).files.length := by
      intro j hj
      rw [hlen2]
      exact hlt j (List.mem_cons_of_mem i hj)
    obtain ⟨glen, gskip, gdo, gcalls, gdel1, gdel2, gclear⟩ :=
      ih (finishAttempt kindId t i o) hnodup2 hlt2
        (fun j hj => hlo j (List.mem_cons_of_mem i hj))
    refine ⟨?_, ?_, ?_, ?_, ?_, ?_, ?_⟩
    · rw [hstep, glen, hlen2]
    · intro j hj
      have hji : j ≠ i := fun hh => hj (hh ▸ List.mem_cons_self i rest)
      have hjr : j ∉ rest := fun hh => hj (List.mem_cons_of_mem i hh)
      rw [hstep, gskip j hjr, hfiles2, List.getElem?_set_ne (Ne.symm hji)]
    · intro j hj o2 ho2
      rcases List.mem_cons.mp hj with hji | hjr
      · subst hji
        rw [ho] at ho2
        have ho3 := Option.some.inj ho2
        subst ho3
        rw [hstep, gskip j hinotrest, hfiles2,
          List.getElem?_set_eq_of_lt _ hii, hfs]
        rfl
      · have hji : j ≠ i := fun hh => hinotrest (hh ▸ hjr)
        rw [hstep, gdo j hjr o2 ho2, hfiles2,
          List.getElem?_set_ne (Ne.symm hji)]
    · intro c hc
      rw [hstep]
      exact gcalls c (finishAttempt_calls_mem kindId t i o c hc)
    · intro j hj id e ho2
      rcases List.mem_cons.mp hj with hji | hjr
      · subst hji
        rw [ho] at ho2
        have ho3 := Option.some.inj ho2
        subst ho3
        rw [hstep]
        exact gcalls _ (finishAttempt_delete_mem_uploadFail kindId t j id e fs hfs)
      · rw [hstep]
        exact gdel1 j hjr id e ho2
    · intro j hj id ho2
      rcases List.mem_cons.mp hj with hji | hjr
      · subst hji
        rw [ho] at ho2
        have ho3 := Option.some.inj ho2
        subst ho3
        rw [hstep]
        exact gcalls _ (finishAttempt_delete_mem_aborted kindId t j id fs hfs)
      · rw [hstep]
        exact gdel2 j hjr id ho2
    · rw [hstep, gclear, finishAttempt_clearLog]

theorem phaseB_no_done (kindId : String) (outcomes : List Outcome) :
    ∀ (order : List Nat) (t : CoordState) (j0 : Nat) (fs0 : FileState),
      t.files[j0]? = some fs0 → fs0.status ≠ Status.uploaded →
      (∀ o, outcomes[j0]? = some o → ∀ id, o ≠ Outcome.success id) →
      ((phaseB kindId outcomes order t).doneLog = t.doneLog ∧
        ∃ fs1, (phaseB kindId outcomes order t).files[j0]? = some fs1 ∧
          fs1.status ≠ Status.uploaded) := by
  intro order
  induction order with
  | nil =>
    intro t j0 fs0 h0 hst _
    exact ⟨rfl, fs0, h0, hst⟩
  | cons i rest ih =>
    intro t j0 fs0 h0 hst hout
    cases ho : outcomes[i]? with
    | none =>
      have hstep : phaseB kindId outcomes (i :: rest) t
          = phaseB kindId outcomes rest t := by
        simp only [phaseB, List.foldl_cons, ho]
      rw [hstep]
      exact ih t j0 fs0 h0 hst hout
    | some o =>
      have hstep : phaseB kindId outcomes (i :: rest) t
          = phaseB kindId outcomes rest (finishAttempt kindId t i o) := by
        simp only [phaseB, List.foldl_cons, ho]
      cases hfi : t.files[i]? with
      | none =>
        rw [hstep, finishAttempt_of_get_none kindId t i o hfi]
        exact ih t j0 fs0 h0 hst hout
      | some fs =>
        have hfiles2 := finishAttempt_files kindId t i o fs hfi
        have hwit : ∃ fs1, (t.files.set i (terminalOf fs o))[j0]? = some fs1 ∧
            fs1.status ≠ Status.uploaded := by
          by_cases hij : i = j0
          · subst hij
            have hlt : i < t.files.length := (List.getElem?_eq_some.mp hfi).1
            refine ⟨terminalOf fs o, List.getElem?_set_eq_of_lt _ hlt, ?_⟩
            have hns := hout o ho
            cases o with
            | success id => exact absurd rfl (hns id)
            | createFail e => simp [terminalOf]
            | uploadFail id e => simp [terminalOf]
            | aborted id => simp [terminalOf]
          · exact ⟨fs0, by rw [List.getElem?_set_ne hij]; exact h0, hst⟩
        obtain ⟨fs1, hget1, hst1⟩ := hwit
        have hall : allUploaded (t.files.set i (terminalOf fs o)) = false :=
          not_allUploaded_of_get _ j0 fs1 hget1 hst1
        have hdone := finishAttempt_doneLog_of_not_all kindId t i o fs hfi hall
        have hget2 : (finishAttempt kindId t i o).files[j0]? = some fs1 := by
          rw [hfiles2]
          exact hget1
        obtain ⟨ihdone, ihwit⟩ :=
          ih (finishAttempt kindId t i o) j0 fs1 hget2 hst1 hout
        rw [hstep]
        exact ⟨ihdone.trans hdone, ihwit⟩

theorem phaseB_success (kindId : String) (outcomes : List Outcome) :
    ∀ (order : List Nat) (t : CoordState),
      order.Nodup → order ≠ [] →
      (∀ j ∈ order, ∃ fs, t.files[j]? = some fs ∧ fs.status = Status.uploading) →
      (∀ j ∈ order, ∃ id, outcomes[j]? = some (Outcome.success id)) →
      (∀ j : Nat, j < t.files.length → j ∉ order →
        ∃ fs, t.files[j]? = some fs ∧ fs.status = Status.uploaded) →
      (∀ fs ∈ t.files, fs.error = none) →
      ((phaseB kindId outcomes order t).files.length = t.files.length) ∧
      allUploaded (phaseB kindId outcomes order t).files = true ∧
      (∀ fs ∈ (phaseB kindId outcomes order t).files, fs.error = none) ∧
      ((phaseB kindId outcomes order t).doneLog = t.doneLog ++
        [some (doneNotes kindId (phaseB kindId outcomes order t).files)]) ∧
      ((phaseB kindId outcomes order t).errorCh = t.errorCh) ∧
      ((phaseB kindId outcomes order t).errorLog = t.errorLog) ∧
      ((phaseB kindId outcomes order t).clearLog = t.clearLog) := by
  intro order
  induction order with
  | nil =>
    intro t _ hne
    exact absurd rfl hne
  | cons i rest ih =>
    intro t hnodup _ hup hsucc hskip hnoerr
    obtain ⟨fsi, hfsi, hfsiup⟩ := hup i (List.mem_cons_self i rest)
    obtain ⟨id, hid⟩ := hsucc i (List.mem_cons_self i rest)
    have hinotrest : i ∉ rest := (List.nodup_cons.mp hnodup).1
    have hnodup2 : rest.Nodup := (List.nodup_cons.mp hnodup).2
    have hstep : phaseB kindId outcomes (i :: rest) t
        = phaseB kindId outcomes rest
            (finishAttempt kindId t i (Outcome.success id)) := by
      simp only [phaseB, List.foldl_cons, hid]
    have hlt : i < t.files.length := (List.getElem?_eq_some.mp hfsi).1
    have hfiles2 := finishAttempt_files kindId t i (Outcome.success id) fsi hfsi
    have hlen2 := finishAttempt_length kindId t i (Outcome.success id)
    have hclear2 := finishAttempt_clearLog kindId t i (Outcome.success id)
    have hnoerr2 : ∀ fsx ∈ (finishAttempt kindId t i (Outcome.success id)).files,
        fsx.error = none := by
      intro fsx hfsx
      rw [hfiles2] at hfsx
      obtain ⟨j, hj⟩ := (mem_iff_getElem? _ fsx).mp hfsx
      by_cases hij : i = j
      · subst hij
        rw [List.getElem?_set_eq_of_lt _ hlt] at hj
        have hfx := Option.some.inj hj
        subst hfx
        have := hnoerr fsi (List.getElem?_mem hfsi)
        simpa [terminalOf] using this
      · rw [List.getElem?_set_ne hij] at hj
        exact hnoerr fsx (List.getElem?_mem hj)
    have hfe : firstErrored (t.files.set i (terminalOf fsi (Outcome.success id)))
        = none := by
      apply firstErrored_eq_none
      intro fsx hfsx
      apply hnoerr2
      rw [hfiles2]
      exact hfsx
    have herrCh := finishAttempt_errorCh_of_none kindId t i (Outcome.success id)
      fsi hfsi hfe
    cases rest with
    | nil =>
      have hall : allUploaded (t.files.set i (terminalOf fsi (Outcome.success id)))
          = true := by
        apply allUploaded_of_pointwise
        intro fsx hfsx
        obtain ⟨j, hj⟩ := (mem_iff_getElem? _ fsx).mp hfsx
        by_cases hij : i = j
        · subst hij
          rw [List.getElem?_set_eq_of_lt _ hlt] at hj
          have hfx := Option.some.inj hj
          subst hfx
          rfl
        · rw [List.getElem?_set_ne hij] at hj
          have hjlt : j < t.files.length := (List.getElem?_eq_some.mp hj).1
          have hjnot : j ∉ [i] := by
            intro hmem
            rcases List.mem_singleton.mp hmem with h2
            exact hij h2.symm
          obtain ⟨fs2, hfs2, hfs2up⟩ := hskip j hjlt hjnot
          rw [hfs2] at hj
          have := Option.some.inj hj
          subst this
          exact hfs2up
      have hne2 : (t.files.set i (terminalOf fsi (Outcome.success id))).isEmpty
          = false := by
        apply isEmpty_eq_false_of_ne_nil
        apply List.ne_nil_of_length_pos
        rw [List.length_set]
        omega
      have hdone := finishAttempt_doneLog_of_all kindId t i (Outcome.success id)
        fsi hfsi hall hne2
      have hphase : phaseB kindId outcomes ([] : List Nat)
          (finishAttempt kindId t i (Outcome.success id))
          = finishAttempt kindId t i (Outcome.success id) := rfl
      rw [hstep, hphase]
      refine ⟨hlen2, ?_, hnoerr2, ?_, herrCh.1, herrCh.2, hclear2⟩
      · rw [hfiles2]
        exact hall
      · rw [hdone, hfiles2]
    | cons r rs =>
      have hrmem : r ∈ r :: rs := List.mem_cons_self r rs
      have hri : r ≠ i := fun hh => hinotrest (hh ▸ hrmem)
      obtain ⟨fsr, hfsr, hfsrup⟩ := hup r (List.mem_cons_of_mem i hrmem)
      have hget_r : (t.files.set i (terminalOf fsi (Outcome.success id)))[r]?
          = some fsr := by
        rw [List.getElem?_set_ne (Ne.symm hri)]
        exact hfsr
      have hall : allUploaded (t.files.set i (terminalOf fsi (Outcome.success id)))
          = false := by
        apply not_allUploaded_of_get _ r fsr hget_r
        rw [hfsrup]
        intro hc
        cases hc
      have hdone := finishAttempt_doneLog_of_not_all kindId t i
        (Outcome.success id) fsi hfsi hall
      have hup2 : ∀ j ∈ r :: rs,
          ∃ fs, (finishAttempt kindId t i (Outcome.success id)).files[j]? = some fs ∧
            fs.status = Status.uploading := by
        intro j hj
        have hji : j ≠ i := fun hh => hinotrest (hh ▸ hj)
        obtain ⟨fs2, hfs2, hfs2up⟩ := hup j (List.mem_cons_of_mem i hj)
        refine ⟨fs2, ?_, hfs2up⟩
        rw [hfiles2, List.getElem?_set_ne (Ne.symm hji)]
        exact hfs2
      have hsucc2 : ∀ j ∈ r :: rs, ∃ id2, outcomes[j]? = some (Outcome.success id2) :=
        fun j hj => hsucc j (List.mem_cons_of_mem i hj)
      have hskip2 : ∀ j : Nat,
          j < (finishAttempt kindId t i (Outcome.success id)).files.length →
          j ∉ r :: rs →
          ∃ fs, (finishAttempt kindId t i (Outcome.success id)).files[j]? = some fs ∧
            fs.status = Status.uploaded := by
        intro j hjlt hjnot
        rw [hlen2] at hjlt
        by_cases hij : i = j
        · subst hij
          refine ⟨terminalOf fsi (Outcome.success id), ?_, rfl⟩
          rw [hfiles2, List.getElem?_set_eq_of_lt _ hlt]
        · have hjnot2 : j ∉ i :: r :: rs := by
            intro hmem
            rcases List.mem_cons.mp hmem with h2 | h2
            · exact hij h2.symm
            · exact hjnot h2
          obtain ⟨fs2, hfs2, hfs2up⟩ := hskip j hjlt hjnot2
          refine ⟨fs2, ?_, hfs2up⟩
          rw [hfiles2, List.getElem?_set_ne hij]
          exact hfs2
      obtain ⟨glen, gall, gerr, gdone, gch, glog, gclear⟩ :=
        ih (finishAttempt kindId t i (Outcome.success id)) hnodup2
          (List.cons_ne_nil r rs) hup2 hsucc2 hskip2 hnoerr2
      rw [hstep]
      refine ⟨glen.trans hlen2, gall, gerr, ?_, gch.trans herrCh.1,
        glog.trans herrCh.2, gclear.trans hclear2⟩
      rw [gdone, hdone]

theorem terminalOf_status (fs : FileState) (o : Outcome) :
    (terminalOf fs o).status = (match o with
      | Outcome.success _ => Status.uploaded
      | _ => Status.upload_failed) := by
  cases o <;> rfl

theorem terminalOf_status_ne_uploading (fs : FileState) (o : Outcome) :
    (terminalOf fs o).status ≠ Status.uploading := by
  cases o <;> simp [terminalOf]

theorem upload_eq_norepeat (k : FileKind) (s : CoordState)
    (outcomes : List Outcome) (order : List Nat) (hup : s.uploadingCh = false) :
    upload k { allowRepeatedUploads := false } s outcomes order = Except.ok
      { state := phaseB k.id outcomes order (phaseA k.id s),
        settledFiles := (phaseB k.id outcomes order (phaseA k.id s)).files,
        emitted := if s.files.isEmpty then 0 else 1 } := by
  simp [upload, hup]

theorem upload_ok (k : FileKind) (opts : UploadOptions) (s : CoordState)
    (outcomes : List Outcome) (order : List Nat)
    (hup : s.uploadingCh = false)
    (hBup : (phaseB k.id outcomes order (phaseA k.id s)).uploadingCh = false) :
    ∃ st, upload k opts s outcomes order = Except.ok
        { state := st,
          settledFiles := (phaseB k.id outcomes order (phaseA k.id s)).files,
          emitted := if s.files.isEmpty then 0 else 1 } ∧
      st.calls = (phaseB k.id outcomes order (phaseA k.id s)).calls := by
  cases hrep : opts.allowRepeatedUploads with
  | false =>
    refine ⟨phaseB k.id outcomes order (phaseA k.id s), ?_, rfl⟩
    simp [upload, hup, hrep]
  | true =>
    have hc := clear_eq k (phaseB k.id outcomes order (phaseA k.id s)) hBup
    refine ⟨{ files := [], errorCh := none,
              uploadingCh := (phaseB k.id outcomes order (phaseA k.id s)).uploadingCh,
              doneLog := (phaseB k.id outcomes order (phaseA k.id s)).doneLog ++ [none],
              errorLog := (phaseB k.id outcomes order (phaseA k.id s)).errorLog ++ [none],
              clearLog := (phaseB k.id outcomes order (phaseA k.id s)).clearLog + 1,
              calls := (phaseB k.id outcomes order (phaseA k.id s)).calls }, ?_, rfl⟩
    simp [upload, hup, hrep, hc]

/-! ## Claim C2 -/

/-- C2: for every configuration and every set of per-record outcomes
(success, backend rejection of create or upload, or abort) of a fresh batch,
`upload` settles: it returns rather than throwing, every per-attempt failure
is caught and converted into a status-field mutation on that record
(`upload_failed`), successful sibling attempts still complete
(`uploaded`), and the aggregate completion fires once every attempt has
settled (`order` ranges over all records), never terminating early on a
single failure. -/
theorem upload_settles (k : FileKind) (opts : UploadOptions) (s : CoordState)
    (outcomes : List Outcome) (order : List Nat)
    (hup : s.uploadingCh = false)
    (hidle : ∀ fs ∈ s.files, fs.status = Status.idle ∧ fs.error = none)
    (hnodup : order.Nodup)
    (hcov : ∀ j : Nat, j ∈ order ↔ j < s.files.length)
    (hlen : outcomes.length = s.files.length) :
    ∃ r, upload k opts s outcomes order = Except.ok r ∧
      r.settledFiles.length = s.files.length ∧
      (∀ j : Nat, ∀ o, outcomes[j]? = some o → j < s.files.length →
        ∃ fs, r.settledFiles[j]? = some fs ∧
          fs.status = (match o with
            | Outcome.success _ => Status.uploaded
            | _ => Status.upload_failed)) := by
  have hidle2 : ∀ fs ∈ s.files, fs.status ≠ Status.uploading := by
    intro fs hfs
    rw [(hidle fs hfs).1]
    intro hc
    cases hc
  have hok0 : uploadingOk s := by
    unfold uploadingOk
    rw [hup, anyUploading_eq_false_of_pointwise s.files hidle2]
  obtain ⟨phALen, phAget, _, _, _, _, _, _⟩ := phaseA_fresh k.id s hidle
  have horderA : ∀ j ∈ order, j < (phaseA k.id s).files.length := by
    intro j hj
    rw [phALen]
    exact (hcov j).mp hj
  have horderO : ∀ j ∈ order, j < outcomes.length := by
    intro j hj
    rw [hlen]
    exact (hcov j).mp hj
  obtain ⟨phBlen, phBskip, phBdo, phBcalls, phBdel1, phBdel2, phBclear⟩ :=
    phaseB_go k.id outcomes order (phaseA k.id s) hnodup horderA horderO
  have hBget : ∀ j : Nat, j < s.files.length → ∀ o, outcomes[j]? = some o →
      ∃ fs, (phaseB k.id outcomes order (phaseA k.id s)).files[j]?
          = some (terminalOf
              { fs with status := Status.uploading, error := none } o) ∧
        s.files[j]? = some fs := by
    intro j hj o ho
    obtain ⟨fs, hfs⟩ : ∃ fs, s.files[j]? = some fs :=
      ⟨s.files[j], List.getElem?_eq_getElem hj⟩
    refine ⟨fs, ?_, hfs⟩
    rw [phBdo j ((hcov j).mpr hj) o ho, phAget j hj, hfs]
    rfl
  have hBany : anyUploading
      (phaseB k.id outcomes order (phaseA k.id s)).files = false := by
    apply anyUploading_eq_false_of_pointwise
    intro fsx hfsx
    obtain ⟨j, hj⟩ := (mem_iff_getElem? _ fsx).mp hfsx
    have hjlt : j < (phaseB k.id outcomes order (phaseA k.id s)).files.length :=
      (List.getElem?_eq_some.mp hj).1
    rw [phBlen, phALen] at hjlt
    obtain ⟨o, ho⟩ : ∃ o, outcomes[j]? = some o :=
      ⟨outcomes[j], List.getElem?_eq_getElem (by rw [hlen]; exact hjlt)⟩
    obtain ⟨fs, hBj, _⟩ := hBget j hjlt o ho
    rw [hBj] at hj
    have := Option.some.inj hj
    subst this
    exact terminalOf_status_ne_uploading _ o
  have hBok : uploadingOk (phaseB k.id outcomes order (phaseA k.id s)) :=
    uploadingOk_phaseB k.id outcomes order _ (uploadingOk_phaseA k.id s hok0)
  have hBup : (phaseB k.id outcomes order (phaseA k.id s)).uploadingCh = false := by
    unfold uploadingOk at hBok
    rw [hBok, hBany]
  obtain ⟨st, hspec, hstcalls⟩ := upload_ok k opts s outcomes order hup hBup
  refine ⟨_, hspec, ?_, ?_⟩
  · show (phaseB k.id outcomes order (phaseA k.id s)).files.length = s.files.length
    rw [phBlen, phALen]
  · intro j o ho hj
    obtain ⟨fs, hBj, hfs⟩ := hBget j hj o ho
    exact ⟨_, hBj, terminalOf_status _ o⟩

/-- C2 witness: a two-record batch where the first upload succeeds and the
second is rejected by the backend; the cycle settles with one `uploaded` and
one `upload_failed` record. -/
theorem upload_settles_witness :
    ∃ r, upload { id := "image", maxSizeBytes := none }
        { allowRepeatedUploads := false }
        { files := [{ file := { name := "a", size := 1 },
                      status := Status.idle, id := none, error := none },
                    { file := { name := "b", size := 1 },
                      status := Status.idle, id := none, error := none }],
          errorCh := none, uploadingCh := false, doneLog := [], errorLog := [],
          clearLog := 0, calls := [] }
        [Outcome.success "id1", Outcome.uploadFail "id2" { message := "boom" }]
        [1, 0] = Except.ok r ∧
      r.settledFiles.length = 2 ∧
      (∀ j : Nat, ∀ o,
        [Outcome.success "id1",
          Outcome.uploadFail "id2" { message := "boom" }][j]? = some o → j < 2 →
        ∃ fs, r.settledFiles[j]? = some fs ∧
          fs.status = (match o with
            | Outcome.success _ => Status.uploaded
            | _ => Status.upload_failed)) := by
  have h := upload_settles { id := "image", maxSizeBytes := none }
    { allowRepeatedUploads := false }
    { files := [{ file := { name := "a", size := 1 },
                  status := Status.idle, id := none, error := none },
                { file := { name := "b", size := 1 },
                  status := Status.idle, id := none, error := none }],
      errorCh := none, uploadingCh := false, doneLog := [], errorLog := [],
      clearLog := 0, calls := [] }
    [Outcome.success "id1", Outcome.uploadFail "id2" { message := "boom" }]
    [1, 0] rfl (by decide) (by decide)
    (by
      intro j
      simp only [List.mem_cons, List.not_mem_nil, or_false, List.length_cons,
        List.length_nil]
      omega)
    rfl
  exact h

/-! ## Claim C3 -/

/-- C3: the done signal fires exactly once per completed batch, carrying one
`{id, kind}` entry for every record, and fires only when the batch is
non-empty and every record reached `uploaded`: for a fresh non-empty batch
whose attempts all succeed, exactly one notification is appended, with one
entry per record; and when some backend upload rejects, no done notification
fires at all during the cycle. -/
theorem done_signal_spec (k : FileKind) (s : CoordState)
    (outcomes : List Outcome) (order : List Nat)
    (hup : s.uploadingCh = false)
    (hne : s.files ≠ [])
    (hidle : ∀ fs ∈ s.files, fs.status = Status.idle ∧ fs.error = none)
    (hnodup : order.Nodup)
    (hcov : ∀ j : Nat, j ∈ order ↔ j < s.files.length) :
    ((∀ j : Nat, j < s.files.length →
        ∃ id, outcomes[j]? = some (Outcome.success id)) →
      ∃ r, upload k { allowRepeatedUploads := false } s outcomes order
          = Except.ok r ∧
        r.state.doneLog = s.doneLog ++ [some (doneNotes k.id r.settledFiles)] ∧
        (doneNotes k.id r.settledFiles).length = s.files.length) ∧
    ((∃ j : Nat, j < s.files.length ∧
        ∃ id e, outcomes[j]? = some (Outcome.uploadFail id e)) →
      ∃ r, upload k { allowRepeatedUploads := false } s outcomes order
          = Except.ok r ∧
        r.state.doneLog = s.doneLog) := by
  obtain ⟨phALen, phAget, phAdone, phAerr, phAch, phAlog, phAclear, phAcalls⟩ :=
    phaseA_fresh k.id s hidle
  have hordne : order ≠ [] := by
    intro h0
    have h1 : (0 : Nat) ∈ order := (hcov 0).mpr (List.length_pos.mpr hne)
    rw [h0] at h1
    exact List.not_mem_nil 0 h1
  have hupA : ∀ j ∈ order, ∃ fs, (phaseA k.id s).files[j]? = some fs ∧
      fs.status = Status.uploading := by
    intro j hj
    have hjlt := (hcov j).mp hj
    obtain ⟨fs, hfs⟩ : ∃ fs, s.files[j]? = some fs :=
      ⟨s.files[j], List.getElem?_eq_getElem hjlt⟩
    exact ⟨_, by rw [phAget j hjlt, hfs]; rfl, rfl⟩
  have hskipA : ∀ j : Nat, j < (phaseA k.id s).files.length → j ∉ order →
      ∃ fs, (phaseA k.id s).files[j]? = some fs ∧ fs.status = Status.uploaded := by
    intro j hjlt hjnot
    rw [phALen] at hjlt
    exact absurd ((hcov j).mpr hjlt) hjnot
  constructor
  · intro hsucc
    have hsuccA : ∀ j ∈ order, ∃ id, outcomes[j]? = some (Outcome.success id) :=
      fun j hj => hsucc j ((hcov j).mp hj)
    obtain ⟨glen, gall, gerr, gdone, gch, glog, gclear⟩ :=
      phaseB_success k.id outcomes order (phaseA k.id s) hnodup hordne
        hupA hsuccA hskipA phAerr
    refine ⟨_, upload_eq_norepeat k s outcomes order hup, ?_, ?_⟩
    · show (phaseB k.id outcomes order (phaseA k.id s)).doneLog
        = s.doneLog ++ [some (doneNotes k.id
            (phaseB k.id outcomes order (phaseA k.id s)).files)]
      rw [gdone, phAdone]
    · show (doneNotes k.id (phaseB k.id outcomes order (phaseA k.id s)).files).length
        = s.files.length
      unfold doneNotes
      rw [List.length_map, glen, phALen]
  · intro hfail
    obtain ⟨j0, hj0lt, id, e, ho⟩ := hfail
    obtain ⟨fs0, hfs0, hfs0up⟩ := hupA j0 ((hcov j0).mpr hj0lt)
    have hout : ∀ o, outcomes[j0]? = some o → ∀ id2, o ≠ Outcome.success id2 := by
      intro o ho2 id2
      rw [ho] at ho2
      have := Option.some.inj ho2
      subst this
      intro hc
      cases hc
    obtain ⟨gdone, _⟩ := phaseB_no_done k.id outcomes order (phaseA k.id s)
      j0 fs0 hfs0 (by rw [hfs0up]; intro hc; cases hc) hout
    refine ⟨_, upload_eq_norepeat k s outcomes order hup, ?_⟩
    show (phaseB k.id outcomes order (phaseA k.id s)).doneLog = s.doneLog
    rw [gdone, phAdone]

/-- C3 witness: a two-record batch, applied once with two successful outcomes
(exactly one done notification with two entries) and once with a rejected
second upload (no done notification). -/
theorem done_signal_spec_witness :
    (∃ r, upload { id := "image", maxSizeBytes := none }
        { allowRepeatedUploads := false }
        { files := [{ file := { name := "a", size := 1 },
                      status := Status.idle, id := none, error := none },
                    { file := { name := "b", size := 1 },
                      status := Status.idle, id := none, error := none }],
          errorCh := none, uploadingCh := false, doneLog := [], errorLog := [],
          clearLog := 0, calls := [] }
        [Outcome.success "id1", Outcome.success "id2"] [1, 0] = Except.ok r ∧
      r.state.doneLog = [] ++ [some (doneNotes "image" r.settledFiles)] ∧
      (doneNotes "image" r.settledFiles).length = 2) ∧
    (∃ r, upload { id := "image", maxSizeBytes := none }
        { allowRepeatedUploads := false }
        { files := [{ file := { name := "a", size := 1 },
                      status := Status.idle, id := none, error := none },
                    { file := { name := "b", size := 1 },
                      status := Status.idle, id := none, error := none }],
          errorCh := none, uploadingCh := false, doneLog := [], errorLog := [],
          clearLog := 0, calls := [] }
        [Outcome.success "id1", Outcome.uploadFail "id2" { message := "boom" }]
        [1, 0] = Except.ok r ∧
      r.state.doneLog = []) := by
  constructor
  · exact (done_signal_spec { id := "image", maxSizeBytes := none }
      { files := [{ file := { name := "a", size := 1 },
                    status := Status.idle, id := none, error := none },
                  { file := { name := "b", size := 1 },
                    status := Status.idle, id := none, error := none }],
        errorCh := none, uploadingCh := false, doneLog := [], errorLog := [],
        clearLog := 0, calls := [] }
      [Outcome.success "id1", Outcome.success "id2"] [1, 0] rfl
      (by intro h; cases h) (by decide) (by decide)
      (by
        intro j
        show j ∈ [1, 0] ↔ j < 2
        simp only [List.mem_cons, List.not_mem_nil, or_false]
        omega)).1
      (by
        intro j hj
        match j, hj with
        | 0, _ => exact ⟨"id1", rfl⟩
        | 1, _ => exact ⟨"id2", rfl⟩)
  · exact (done_signal_spec { id := "image", maxSizeBytes := none }
      { files := [{ file := { name := "a", size := 1 },
                    status := Status.idle, id := none, error := none },
                  { file := { name := "b", size := 1 },
                    status := Status.idle, id := none, error := none }],
        errorCh := none, uploadingCh := false, doneLog := [], errorLog := [],
        clearLog := 0, calls := [] }
      [Outcome.success "id1", Outcome.uploadFail "id2" { message := "boom" }]
      [1, 0] rfl
      (by intro h; cases h) (by decide) (by decide)
      (by
        intro j
        show j ∈ [1, 0] ↔ j < 2
        simp only [List.mem_cons, List.not_mem_nil, or_false]
        omega)).2
      ⟨1, by decide, "id2", { message := "boom" }, rfl⟩

/-! ## Claim C4 -/

/-- C4: calling `abort()` mid-upload succeeds (the guard only rejects it when
nothing is in flight), and each record whose attempt the abort signal
cancels (modelled by the `Outcome.aborted` settlement of the race inside
`uploadFile`) transitions to `upload_failed` with no error recorded —
cancellation is silent — and, since such a record had already obtained its
remote identifier from the backend create step, a delete call for that
identifier is issued. -/
theorem abort_silent_failure_and_cleanup (k : FileKind) (opts : UploadOptions)
    (s : CoordState) (outcomes : List Outcome) (order : List Nat)
    (hup : s.uploadingCh = false)
    (hidle : ∀ fs ∈ s.files, fs.status = Status.idle ∧ fs.error = none)
    (hnodup : order.Nodup)
    (hcov : ∀ j : Nat, j ∈ order ↔ j < s.files.length)
    (hlen : outcomes.length = s.files.length) :
    (∀ t : CoordState, t.uploadingCh = true → abort t = Except.ok t) ∧
    ∃ r, upload k opts s outcomes order = Except.ok r ∧
      ∀ j : Nat, ∀ id, outcomes[j]? = some (Outcome.aborted id) →
        j < s.files.length →
        (∃ fs, r.settledFiles[j]? = some fs ∧
          fs.status = Status.upload_failed ∧ fs.error = none) ∧
        ClientCall.delete id k.id ∈ r.state.calls := by
  refine ⟨fun t ht => by simp [abort, ht], ?_⟩
  have hidle2 : ∀ fs ∈ s.files, fs.status ≠ Status.uploading := by
    intro fs hfs
    rw [(hidle fs hfs).1]
    intro hc
    cases hc
  have hok0 : uploadingOk s := by
    unfold uploadingOk
    rw [hup, anyUploading_eq_false_of_pointwise s.files hidle2]
  obtain ⟨phALen, phAget, _, _, _, _, _, _⟩ := phaseA_fresh k.id s hidle
  have horderA : ∀ j ∈ order, j < (phaseA k.id s).files.length := by
    intro j hj
    rw [phALen]
    exact (hcov j).mp hj
  have horderO : ∀ j ∈ order, j < outcomes.length := by
    intro j hj
    rw [hlen]
    exact (hcov j).mp hj
  obtain ⟨phBlen, phBskip, phBdo, phBcalls, phBdel1, phBdel2, phBclear⟩ :=
    phaseB_go k.id outcomes order (phaseA k.id s) hnodup horderA horderO
  have hBget : ∀ j : Nat, j < s.files.length → ∀ o, outcomes[j]? = some o →
      ∃ fs, (phaseB k.id outcomes order (phaseA k.id s)).files[j]?
          = some (terminalOf
              { fs with status := Status.uploading, error := none } o) ∧
        s.files[j]? = some fs := by
    intro j hj o ho
    obtain ⟨fs, hfs⟩ : ∃ fs, s.files[j]? = some fs :=
      ⟨s.files[j], List.getElem?_eq_getElem hj⟩
    refine ⟨fs, ?_, hfs⟩
    rw [phBdo j ((hcov j).mpr hj) o ho, phAget j hj, hfs]
    rfl
  have hBany : anyUploading
      (phaseB k.id outcomes order (phaseA k.id s)).files = false := by
    apply anyUploading_eq_false_of_pointwise
    intro fsx hfsx
    obtain ⟨j, hj⟩ := (mem_iff_getElem? _ fsx).mp hfsx
    have hjlt : j < (phaseB k.id outcomes order (phaseA k.id s)).files.length :=
      (List.getElem?_eq_some.mp hj).1
    rw [phBlen, phALen] at hjlt
    obtain ⟨o, ho⟩ : ∃ o, outcomes[j]? = some o :=
      ⟨outcomes[j], List.getElem?_eq_getElem (by rw [hlen]; exact hjlt)⟩
    obtain ⟨fs, hBj, _⟩ := hBget j hjlt o ho
    rw [hBj] at hj
    have := Option.some.inj hj
    subst this
    exact terminalOf_status_ne_uploading _ o
  have hBok : uploadingOk (phaseB k.id outcomes order (phaseA k.id s)) :=
    uploadingOk_phaseB k.id outcomes order _ (uploadingOk_phaseA k.id s hok0)
  have hBup : (phaseB k.id outcomes order (phaseA k.id s)).uploadingCh = false := by
    unfold uploadingOk at hBok
    rw [hBok, hBany]
  obtain ⟨st, hspec, hstcalls⟩ := upload_ok k opts s outcomes order hup hBup
  refine ⟨_, hspec, ?_⟩
  intro j id ho hj
  obtain ⟨fs, hBj, hfs⟩ := hBget j hj (Outcome.aborted id) ho
  refine ⟨⟨_, hBj, rfl, rfl⟩, ?_⟩
  show ClientCall.delete id k.id ∈ st.calls
  rw [hstcalls]
  exact phBdel2 j ((hcov j).mpr hj) id ho

/-- C4 witness: a single-record batch whose attempt is aborted after the
remote placeholder was created: the record ends `upload_failed` with no
error, and the placeholder is deleted. -/
theorem abort_silent_failure_and_cleanup_witness :
    (∀ t : CoordState, t.uploadingCh = true → abort t = Except.ok t) ∧
    ∃ r, upload { id := "image", maxSizeBytes := none }
        { allowRepeatedUploads := false }
        { files := [{ file := { name := "a", size := 1 },
                      status := Status.idle, id := none, error := none }],
          errorCh := none, uploadingCh := false, doneLog := [], errorLog := [],
          clearLog := 0, calls := [] }
        [Outcome.aborted "idX"] [0] = Except.ok r ∧
      ∀ j : Nat, ∀ id, [Outcome.aborted "idX"][j]? = some (Outcome.aborted id) →
        j < 1 →
        (∃ fs, r.settledFiles[j]? = some fs ∧
          fs.status = Status.upload_failed ∧ fs.error = none) ∧
        ClientCall.delete id "image" ∈ r.state.calls :=
  abort_silent_failure_and_cleanup { id := "image", maxSizeBytes := none }
    { allowRepeatedUploads := false }
    { files := [{ file := { name := "a", size := 1 },
                  status := Status.idle, id := none, error := none }],
      errorCh := none, uploadingCh := false, doneLog := [], errorLog := [],
      clearLog := 0, calls := [] }
    [Outcome.aborted "idX"] [0] rfl (by decide) (by decide)
    (by
      intro j
      show j ∈ [0] ↔ j < 1
      simp only [List.mem_cons, List.not_mem_nil, or_false]
      omega)
    rfl

/-! ## Claim C10 -/

/-- C10: when the coordinator is configured with `allowRepeatedUploads`, the
automatic clear that runs after a completed upload cycle emits an additional
`undefined` value on the done channel and on the error channel: a subscriber
of `done$` observes the `undefined` emission right after the batch's
`{id, kind}` notification, the error channel log gains an `undefined`
emission, and the batch is reset with one clear notification. -/
theorem repeated_uploads_clear_emission (k : FileKind) (s : CoordState)
    (outcomes : List Outcome) (order : List Nat)
    (hup : s.uploadingCh = false)
    (hne : s.files ≠ [])
    (hidle : ∀ fs ∈ s.files, fs.status = Status.idle ∧ fs.error = none)
    (hnodup : order.Nodup)
    (hcov : ∀ j : Nat, j ∈ order ↔ j < s.files.length)
    (hsucc : ∀ j : Nat, j < s.files.length →
      ∃ id, outcomes[j]? = some (Outcome.success id)) :
    ∃ r, upload k { allowRepeatedUploads := true } s outcomes order
        = Except.ok r ∧
      r.state.doneLog = s.doneLog ++ [some (doneNotes k.id r.settledFiles), none] ∧
      r.state.errorLog = s.errorLog ++ [none] ∧
      r.state.errorCh = none ∧
      r.state.files = [] ∧
      r.state.clearLog = s.clearLog + 1 := by
  obtain ⟨phALen, phAget, phAdone, phAerr, phAch, phAlog, phAclear, phAcalls⟩ :=
    phaseA_fresh k.id s hidle
  have hordne : order ≠ [] := by
    intro h0
    have h1 : (0 : Nat) ∈ order := (hcov 0).mpr (List.length_pos.mpr hne)
    rw [h0] at h1
    exact List.not_mem_nil 0 h1
  have hupA : ∀ j ∈ order, ∃ fs, (phaseA k.id s).files[j]? = some fs ∧
      fs.status = Status.uploading := by
    intro j hj
    have hjlt := (hcov j).mp hj
    obtain ⟨fs, hfs⟩ : ∃ fs, s.files[j]? = some fs :=
      ⟨s.files[j], List.getElem?_eq_getElem hjlt⟩
    exact ⟨_, by rw [phAget j hjlt, hfs]; rfl, rfl⟩
  have hskipA : ∀ j : Nat, j < (phaseA k.id s).files.length → j ∉ order →
      ∃ fs, (phaseA k.id s).files[j]? = some fs ∧ fs.status = Status.uploaded := by
    intro j hjlt hjnot
    rw [phALen] at hjlt
    exact absurd ((hcov j).mpr hjlt) hjnot
  have hsuccA : ∀ j ∈ order, ∃ id, outcomes[j]? = some (Outcome.success id) :=
    fun j hj => hsucc j ((hcov j).mp hj)
  obtain ⟨glen, gall, gerr, gdone, gch, glog, gclear⟩ :=
    phaseB_success k.id outcomes order (phaseA k.id s) hnodup hordne
      hupA hsuccA hskipA phAerr
  have hidle2 : ∀ fs ∈ s.files, fs.status ≠ Status.uploading := by
    intro fs hfs
    rw [(hidle fs hfs).1]
    intro hc
    cases hc
  have hok0 : uploadingOk s := by
    unfold uploadingOk
    rw [hup, anyUploading_eq_false_of_pointwise s.files hidle2]
  have hBany : anyUploading
      (phaseB k.id outcomes order (phaseA k.id s)).files = false := by
    apply anyUploading_eq_false_of_pointwise
    intro fsx hfsx
    have := List.all_eq_true.mp gall fsx hfsx
    have hst : fsx.status = Status.uploaded := by simpa using this
    rw [hst]
    intro hc
    cases hc
  have hBok : uploadingOk (phaseB k.id outcomes order (phaseA k.id s)) :=
    uploadingOk_phaseB k.id outcomes order _ (uploadingOk_phaseA k.id s hok0)
  have hBup : (phaseB k.id outcomes order (phaseA k.id s)).uploadingCh = false := by
    unfold uploadingOk at hBok
    rw [hBok, hBany]
  have hc := clear_eq k (phaseB k.id outcomes order (phaseA k.id s)) hBup
  refine ⟨{ state := { files := [], errorCh := none,
                       uploadingCh := (phaseB k.id outcomes order (phaseA k.id s)).uploadingCh,
                       doneLog := (phaseB k.id outcomes order (phaseA k.id s)).doneLog ++ [none],
                       errorLog := (phaseB k.id outcomes order (phaseA k.id s)).errorLog ++ [none],
                       clearLog := (phaseB k.id outcomes order (phaseA k.id s)).clearLog + 1,
                       calls := (phaseB k.id outcomes order (phaseA k.id s)).calls },
            settledFiles := (phaseB k.id outcomes order (phaseA k.id s)).files,
            emitted := if s.files.isEmpty then 0 else 1 },
    ?_, ?_, ?_, rfl, rfl, ?_⟩
  · simp [upload, hup, hc]
  · show (phaseB k.id outcomes order (phaseA k.id s)).doneLog ++ [none]
      = s.doneLog ++ [some (doneNotes k.id
          (phaseB k.id outcomes order (phaseA k.id s)).files), none]
    rw [gdone, phAdone, List.append_assoc]
    rfl
  · show (phaseB k.id outcomes order (phaseA k.id s)).errorLog ++ [none]
      = s.errorLog ++ [none]
    rw [glog, phAlog]
  · show (phaseB k.id outcomes order (phaseA k.id s)).clearLog + 1
      = s.clearLog + 1
    rw [gclear, phAclear]

/-- C10 witness: a single successful record with repeated uploads allowed:
`done$` emits the batch notification and then `undefined`, and `error$` is
reset with an `undefined` emission. -/
theorem repeated_uploads_clear_emission_witness :
    ∃ r, upload { id := "image", maxSizeBytes := none }
        { allowRepeatedUploads := true }
        { files := [{ file := { name := "a", size := 1 },
                      status := Status.idle, id := none, error := none }],
          errorCh := none, uploadingCh := false, doneLog := [], errorLog := [],
          clearLog := 0, calls := [] }
        [Outcome.success "id1"] [0] = Except.ok r ∧
      r.state.doneLog = [] ++ [some (doneNotes "image" r.settledFiles), none] ∧
      r.state.errorLog = [] ++ [none] ∧
      r.state.errorCh = none ∧
      r.state.files = [] ∧
      r.state.clearLog = 0 + 1 :=
  repeated_uploads_clear_emission { id := "image", maxSizeBytes := none }
    { files := [{ file := { name := "a", size := 1 },
                  status := Status.idle, id := none, error := none }],
      errorCh := none, uploadingCh := false, doneLog := [], errorLog := [],
      clearLog := 0, calls := [] }
    [Outcome.success "id1"] [0] rfl (by intro h; cases h) (by decide) (by decide)
    (by
      intro j
      show j ∈ [0] ↔ j < 1
      simp only [List.mem_cons, List.not_mem_nil, or_false]
      omega)
    (by
      intro j hj
      match j, hj with
      | 0, _ => exact ⟨"id1", rfl⟩)

end UploadSpec
